import Mathlib

/-!
# tfautomv: the planner driver (`internal/terraform/runner.go`) and the
consumer of the `commands` output format (`internal/e2e/e2e_test.go`)

The runner starts `terraform` subprocesses, reads what they print and touches
one temporary file.  The embedding makes that explicit:

* `Sys` is the state the runner acts on: the set of files that exist and the
  list of subprocesses started so far;
* `Env` holds what the runner does not control: the outcome of `os.CreateTemp`,
  of each subprocess, and of the library calls `json.Unmarshal` and
  `semver.NewVersion`;
* every Go function that returns `(value, error)` returns a pair of options, so
  that "nil" is `none` on either side.
-/

namespace Tfautomv

/-! ## Data -/

/-- The fields of `exec.Cmd` that `runCommand` sets: `exec.Command(name, args...)`
and `cmd.Dir`. -/
structure Cmd where
  name : String
  args : List String
  dir : String
deriving DecidableEq, Repr

/-- One write of a subprocess: to its standard error when `toStderr`, to its
standard output otherwise. -/
structure Chunk where
  toStderr : Bool
  data : String
deriving DecidableEq, Repr

/-- The outcome of `cmd.Run()`: the run error (`none` for a zero exit), the
writes of the subprocess in the order they happened, and the files that exist
once it has ended. -/
structure RunResult where
  err : Option String
  output : List Chunk
  files : List String
deriving DecidableEq, Repr

/-- The value `Error{cmd, &buf, err}` built by `runCommand`: the command, the
contents of the buffer `buf`, the error of `cmd.Run()`. -/
structure Error where
  cmd : Cmd
  buf : String
  err : String
deriving DecidableEq, Repr

/-- Go `error` values the runner returns. -/
inductive GoErr where
  /-- the error of `os.CreateTemp` -/
  | os (msg : String)
  /-- an `Error` of `runCommand` -/
  | command (e : Error)
  /-- the error of `json.Unmarshal` -/
  | json (msg : String)
  /-- the value of `fmt.Errorf(text + "%w", inner)` -/
  | wrapf (text : String) (inner : GoErr)
  /-- the value of `fmt.Errorf(text + "%q", operand)` -/
  | quotef (text : String) (operand : String)
  /-- the error of `semver.NewVersion` -/
  | semver (msg : String)
deriving DecidableEq, Repr

/-- The error a `%w` verb wrapped (`errors.Unwrap`). -/
def GoErr.unwrap : GoErr → Option GoErr
  | .wrapf _ inner => some inner
  | _ => none

/-- Modelled from the spec: the attribute tree of a resource (the declaration
is in `plan.go`, which is not among the sources). A scalar, an ordered sequence
or a mapping from string keys to values. -/
inductive Attr where
  | null
  | bool (b : Bool)
  | number (q : ℚ)
  | string (s : String)
  | sequence (xs : List Attr)
  | mapping (kvs : List (String × Attr))

/-- Modelled from the spec: an element of `resource_changes` (the declaration
is in `plan.go`, which is not among the sources). -/
structure ResourceChange where
  address : String
  type : String
  actions : List String
  before : Option Attr
  after : Option Attr

/-- Modelled from the spec: the type `Plan` that `json.Unmarshal` fills (the
declaration is in `plan.go`, which is not among the sources): the
`format_version` of the document when it has one, and its `resource_changes`. -/
structure Plan where
  format_version : Option String
  resource_changes : List ResourceChange

/-- The type `Version` that `json.Unmarshal` fills in `runner.Version`; the
runner reads its field `TerraformVersion`. -/
structure Version where
  TerraformVersion : String
deriving DecidableEq, Repr

/-- A `semver.Version`. -/
structure SemVer where
  major : Nat
  minor : Nat
  patch : Nat
  pre : String
  metadata : String
deriving DecidableEq, Repr

deriving instance DecidableEq for Except

/-- What the runner does not control. -/
structure Env where
  /-- the call `os.CreateTemp("", "tfautomv.*.plan")` on the files that exist: the name
  of the file it creates, or its error -/
  createTemp : List String → Except String String
  /-- the call `cmd.Run()` on the files that exist -/
  run : Cmd → List String → RunResult
  /-- the call `json.Unmarshal(data, &plan)` for `plan` of type `Plan` -/
  unmarshalPlan : String → Except String Plan
  /-- the call `json.Unmarshal(data, &version)` for `version` of type `Version` -/
  unmarshalVersion : String → Except String Version
  /-- the function `semver.NewVersion` -/
  newVersion : String → Except String SemVer

/-- The state the runner acts on: the files that exist, and the subprocesses
started so far, oldest first. -/
structure Sys where
  files : List String
  calls : List Cmd
deriving DecidableEq, Repr

/-- The call `os.Remove(name)`: afterwards no file of that name exists. -/
def osRemove (name : String) (s : Sys) : Sys :=
  { s with files := s.files.filter (fun f => f ≠ name) }

/-- The bytes a writer receives from the writes selected by `sel`. -/
def written (sel : Chunk → Bool) (output : List Chunk) : String :=
  String.join ((output.filter sel).map (fun c => c.data))

/-- The standard output of a run. -/
def stdoutOf (output : List Chunk) : String :=
  written (fun c => !c.toStderr) output

/-- The standard error of a run. -/
def stderrOf (output : List Chunk) : String :=
  written (fun c => c.toStderr) output

/-! ## The regular expression of `runner.Version` -/

/-- An item of a regular expression without alternation: one character of a
class, one or more characters of a class (greedy), or the boundary of a
capture group. -/
inductive Item where
  | one (p : Char → Bool)
  | plus (p : Char → Bool)
  | mark

/-- The class `\d`. -/
def isDigit (c : Char) : Bool := decide (48 ≤ c.toNat) && decide (c.toNat ≤ 57)

/-- The class `.`: any character but a newline. -/
def isAnyNotNL (c : Char) : Bool := !decide (c = '\n')

/-- The class of the literal character `a`. -/
def isLit (a c : Char) : Bool := decide (c = a)

/-- Match `items` at the position `i` of the input, of which `s` is what is left,
with Go's leftmost-first preference: a greedy `plus` tries its longest run
first and gives back one character at a time. The result is the positions of
the `mark`s and the position where the match ends. -/
def matchHere : List Item → Nat → List Char → Option (List Nat × Nat)
  | [], i, _ => some ([], i)
  | .mark :: is, i, s => (matchHere is i s).map (fun r => (i :: r.1, r.2))
  | .one _ :: _, _, [] => none
  | .one p :: is, i, c :: cs => if p c then matchHere is (i + 1) cs else none
  | .plus p :: is, i, s =>
      (List.range (s.takeWhile p).length).reverse.findSome?
        (fun k => matchHere is (i + (k + 1)) (s.drop (k + 1)))

/-- The items of a literal text. -/
def litItems (s : String) : List Item := s.toList.map (fun a => Item.one (isLit a))

/-- The expression `^Terraform (v\d+\.\d+.\d+)\n` after the `^`: the second
separator is an unescaped `.`. -/
def versionRe : List Item :=
  litItems "Terraform " ++
    [.mark, .one (isLit 'v'), .plus isDigit, .one (isLit '.'), .plus isDigit,
      .one isAnyNotNL, .plus isDigit, .mark, .one (isLit '\n')]

/-- The call `re.FindStringSubmatch(s)` for `re` the expression above: `[]` (nil) when
there is no match, else the matched text and the text of the group. The `^`
(without the `m` flag) lets a match start at position 0 only. -/
def FindStringSubmatch (s : String) : List String :=
  match matchHere versionRe 0 s.toList with
  | some ([a, b], e) => [String.mk (s.toList.take e), String.mk ((s.toList.take b).drop a)]
  | _ => []

/-- A decimal numeral: one or more digits. -/
def isNumeral (s : String) : Bool := !s.toList.isEmpty && s.toList.all isDigit

/-! ## The runner -/

/-- The type `runner`. -/
structure runner where
  workdir : String
deriving DecidableEq, Repr

/-- The function `NewRunner`. -/
def NewRunner (workdir : String) : runner := { workdir := workdir }

/-- The method `runner.runCommand`. `out` is the contents of the writer `out` (`none` for
nil). The results are the error, the contents of `out` afterwards, and the
state afterwards. `buf` receives the standard error, and the standard output
too when `out` is nil. -/
def runner.runCommand (r : runner) (env : Env) (args : List String) (out : Option String)
    (s : Sys) : Option Error × Option String × Sys :=
  let cmd : Cmd := { name := "terraform", args := args, dir := r.workdir }
  let res := env.run cmd s.files
  let buf := written (fun c => c.toStderr || out.isNone) res.output
  let out1 := out.map (fun o => o ++ stdoutOf res.output)
  let s1 : Sys := { files := res.files, calls := s.calls ++ [cmd] }
  match res.err with
  | some e => (some { cmd := cmd, buf := buf, err := e }, out1, s1)
  | none => (none, out1, s1)

/-- The method `runner.Init`. -/
def runner.Init (r : runner) (env : Env) (s : Sys) : Option Error × Sys :=
  let x := r.runCommand env ["init"] none s
  (x.1, x.2.2)

/-- The method `runner.Apply`. -/
def runner.Apply (r : runner) (env : Env) (s : Sys) : Option Error × Sys :=
  let x := r.runCommand env ["apply", "-auto-approve"] none s
  (x.1, x.2.2)

/-- The body of `runner.Plan` after the temporary file `planFile` exists and
its removal is deferred. -/
def runner.planBody (r : runner) (env : Env) (planFile : String) (s : Sys) :
    (Option Tfautomv.Plan × Option GoErr) × Sys :=
  match r.runCommand env ["plan", "-out", planFile] none s with
  | (some err, _, s1) => ((none, some (.command err)), s1)
  | (none, _, s1) =>
    match r.runCommand env ["show", "-json", planFile] (some "") s1 with
    | (some err, _, s2) => ((none, some (.command err)), s2)
    | (none, jsonPlan, s2) =>
      match env.unmarshalPlan (jsonPlan.getD "") with
      | .error err => ((none, some (.wrapf "could not parse plan: " (.json err))), s2)
      | .ok plan => ((some plan, none), s2)

/-- The method `runner.Plan`: the plan and the error it returns, and the state when it
returns. -/
def runner.Plan (r : runner) (env : Env) (s : Sys) :
    (Option Tfautomv.Plan × Option GoErr) × Sys :=
  match env.createTemp s.files with
  | .error err => ((none, some (.os err)), s)
  | .ok planFile =>
    let x := r.planBody env planFile { s with files := planFile :: s.files }
    (x.1, osRemove planFile x.2)

/-- The pair `semver.NewVersion` returns. -/
def semverResult : Except String SemVer → Option SemVer × Option GoErr
  | .ok sv => (some sv, none)
  | .error err => (none, some (.semver err))

/-- The method `runner.Version`: the version and the error it returns, and the state when
it returns. -/
def runner.Version (r : runner) (env : Env) (s : Sys) :
    (Option SemVer × Option GoErr) × Sys :=
  match r.runCommand env ["version", "-json"] (some "") s with
  | (some err, _, s1) => ((none, some (.command err)), s1)
  | (none, jsonVersion, s1) =>
    let versionString := jsonVersion.getD ""
    let parsed : Except GoErr String :=
      match env.unmarshalVersion versionString with
      | .ok version => .ok version.TerraformVersion
      | .error _ =>
        let submatches := FindStringSubmatch versionString
        if submatches.length ≠ 2 then
          .error (.quotef "could not parse version from output " versionString)
        else .ok (submatches.getD 1 "")
    match parsed with
    | .error err => ((none, some err), s1)
    | .ok v => (semverResult (env.newVersion v), s1)

/-! ## The consumer of the `commands` format (`TestE2E`)

Go strings are lists of characters in this part. -/

/-- The function `strings.Split(s, sep)` for a separator `sep` of one character. -/
def splitOnChar (sep : Char) : List Char → List (List Char)
  | [] => [[]]
  | c :: cs =>
    if c = sep then [] :: splitOnChar sep cs
    else
      match splitOnChar sep cs with
      | [] => [[c]]
      | l :: ls => (c :: l) :: ls

/-- The call `strings.Split(s, "\n")`. -/
def Split (s : List Char) : List (List Char) := splitOnChar '\n' s

/-- The function `unicode.IsSpace`: tab, newline, vertical tab, form feed, carriage return,
space, U+0085, U+00A0, and beyond Latin-1 the code points of `White_Space`. -/
def isSpace (c : Char) : Bool :=
  let n := c.toNat
  decide (9 ≤ n ∧ n ≤ 13) || n == 32 || n == 0x85 || n == 0xA0 || n == 0x1680 ||
    decide (0x2000 ≤ n ∧ n ≤ 0x200A) || n == 0x2028 || n == 0x2029 || n == 0x202F ||
    n == 0x205F || n == 0x3000

/-- The loop of `strings.Fields`: `cur` is the field being read (`none` between
fields). -/
def fieldsLoop : Option (List Char) → List Char → List (List Char)
  | none, [] => []
  | some w, [] => [w]
  | none, c :: cs => if isSpace c then fieldsLoop none cs else fieldsLoop (some [c]) cs
  | some w, c :: cs =>
    if isSpace c then w :: fieldsLoop none cs else fieldsLoop (some (w ++ [c])) cs

/-- The function `strings.Fields`. -/
def Fields (s : List Char) : List (List Char) := fieldsLoop none s

/-- The function `strings.Trim(s, cutset)` for a cutset of the one character `cut`. -/
def Trim (s : List Char) (cut : Char) : List Char :=
  ((s.dropWhile (fun c => c == cut)).reverse.dropWhile (fun c => c == cut)).reverse

/-- The arguments of `exec.Command(cmdName, trimArgs...)`. -/
structure ExecCommand where
  cmdName : List Char
  trimArgs : List (List Char)
deriving DecidableEq, Repr

/-- The command the test builds from one non-empty line `tfMvCmd`; `none` when
`strings.Fields(tfMvCmd)[0]` is out of range. -/
def tfMvCommand (tfMvCmd : List Char) : Option ExecCommand :=
  match Fields tfMvCmd with
  | [] => none
  | cmdName :: args => some { cmdName := cmdName, trimArgs := args.map (fun arg => Trim arg '"') }

/-- The loop over `tfMvCmds`: the commands the test builds, in order; empty
items are skipped. -/
def tfMvLoop : List (List Char) → Option (List ExecCommand)
  | [] => some []
  | tfMvCmd :: rest =>
    if tfMvCmd = [] then tfMvLoop rest
    else
      match tfMvCommand tfMvCmd with
      | none => none
      | some cmd => (tfMvLoop rest).map (fun cmds => cmd :: cmds)

/-- The commands the test runs for the standard output `stdout` of the tool in
the `commands` case. -/
def tfMvCommands (stdout : List Char) : Option (List ExecCommand) :=
  tfMvLoop (Split stdout)

/-- A text without white space. -/
def noSpace (s : List Char) : Bool := s.all (fun c => !isSpace c)

/-- An address the round trip admits: no white space, and a double quote neither
at its start nor at its end. -/
def isPlainAddress (a : List Char) : Bool :=
  noSpace a && a.head? != some '"' && a.getLast? != some '"'

/-- Modelled from the spec: a line of the `commands` format,
`<cmd> state mv "<src>" "<dst>"` (the emitter is not among the sources). -/
def commandLine (cmd src dst : List Char) : List Char :=
  cmd ++ " state mv \"".toList ++ src ++ "\" \"".toList ++ dst ++ "\"".toList

/-- Lines separated by newlines (`strings.Join(lines, "\n")`). -/
def joinLines : List (List Char) → List Char
  | [] => []
  | [l] => l
  | l :: ls => l ++ '\n' :: joinLines ls

/-- Modelled from the spec: the standard output of the `commands` format for a
list of moves, one line per move, with a newline at the end when `trailing`
(the emitter is not among the sources). -/
def commandsOutput (cmd : List Char) (moves : List (List Char × List Char))
    (trailing : Bool) : List Char :=
  joinLines (moves.map (fun m => commandLine cmd m.1 m.2)) ++ (if trailing then ['\n'] else [])

/-! ## A model of `semver.NewVersion`

The library `github.com/Masterminds/semver/v3` is not part of the repository.
The runner is parametric in it (`Env.newVersion`); the model below serves the
concrete environments. -/

/-- The call `strconv.ParseUint(s, 10, 64)` on a run of digits. -/
def parseUint (ds : List Char) : Option Nat :=
  let n := ds.foldl (fun a c => 10 * a + (c.toNat - 48)) 0
  if ds ≠ [] ∧ ds.all isDigit ∧ n < 2 ^ 64 then some n else none

/-- An optional group `(\.[0-9]+)?`: its digits (none when the group is
skipped) and the text after it. -/
def optSegment : List Char → List Char × List Char
  | '.' :: t =>
    if t.takeWhile isDigit = [] then ([], '.' :: t)
    else (t.takeWhile isDigit, t.dropWhile isDigit)
  | s => ([], s)

/-- The class `[0-9A-Za-z\-]`. -/
def isIdentChar (c : Char) : Bool := c.isAlphanum || c == '-'

/-- An optional group `(<lead>([0-9A-Za-z\-]+(\.[0-9A-Za-z\-]+)*))?`: its
inner text (none when the group is skipped) and the text after it. -/
def optLabel (lead : Char) : List Char → List Char × List Char
  | [] => ([], [])
  | c :: t =>
    let body := t.takeWhile (fun x => isIdentChar x || x == '.')
    if c = lead ∧ (splitOnChar '.' body).all (fun part => part ≠ []) then
      (body, t.dropWhile (fun x => isIdentChar x || x == '.'))
    else ([], c :: t)

/-- Model of `semver.NewVersion` in its lenient reading of a version: an
optional `v`, one to three numeric segments (the missing ones are 0), an
optional prerelease after `-` and optional metadata after `+`; each segment
fits 64 bits, and a numeric prerelease part of several digits does not start
with 0. -/
def semverNewVersion (v : String) : Except String SemVer :=
  let s := match v.toList with
    | 'v' :: t => t
    | s => s
  let major := s.takeWhile isDigit
  let minor := optSegment (s.dropWhile isDigit)
  let patch := optSegment minor.2
  let pre := optLabel '-' patch.2
  let metadata := optLabel '+' pre.2
  if major = [] ∨ metadata.2 ≠ [] then .error "Invalid Semantic Version"
  else
    match parseUint major, parseUint (if minor.1 = [] then ['0'] else minor.1),
        parseUint (if patch.1 = [] then ['0'] else patch.1) with
    | some a, some b, some c =>
      if pre.1 ≠ [] ∧ (splitOnChar '.' pre.1).any
          (fun part => part.all isDigit && decide (1 < part.length) && part.head? == some '0') then
        .error "Version segment starts with 0"
      else .ok { major := a, minor := b, patch := c, pre := String.mk pre.1,
                 metadata := String.mk metadata.1 }
    | _, _, _ => .error "Error parsing version segment"

/-- The number a run of digits denotes. -/
def numeralValue (s : String) : Nat :=
  s.toList.foldl (fun a c => 10 * a + (c.toNat - 48)) 0

/-- A decoder of the version document for examples in the manner of
`encoding/json`: it knows one document and rejects every other text. -/
def sampleUnmarshalVersion (data : String) : Except String Version :=
  if data = "\x7b\"terraform_version\":\"1.5.7\"\x7d" then .ok { TerraformVersion := "1.5.7" }
  else .error "invalid character"

/-! ## Concrete environments -/

/-- The invocations listed for the planner subprocess: `init`, `plan -out <file>`,
`show -json <file>`, `version -json`. -/
def isListedInvocation : List String → Bool
  | ["init"] => true
  | ["plan", "-out", _] => true
  | ["show", "-json", _] => true
  | ["version", "-json"] => true
  | _ => false

/-- An environment for examples: `os.CreateTemp` creates `/tmp/tfautomv.1.plan`,
a subprocess leaves the files as they are and ends as `script` says for its
arguments, `json.Unmarshal` and `semver.NewVersion` are as given. -/
def scriptedEnv (script : List String → Option String × List Chunk)
    (unmarshalPlan : String → Except String Tfautomv.Plan)
    (unmarshalVersion : String → Except String Version)
    (newVersion : String → Except String SemVer) : Env where
  createTemp := fun _ => .ok "/tmp/tfautomv.1.plan"
  run := fun cmd files =>
    { err := (script cmd.args).1, output := (script cmd.args).2, files := files }
  unmarshalPlan := unmarshalPlan
  unmarshalVersion := unmarshalVersion
  newVersion := newVersion

/-- A subprocess script: `plan` ends as `planErr` says, `show` ends as `showErr`
says after printing `showOut`, every other subprocess succeeds silently. A
failing subprocess writes `Error` to its standard error. -/
def planScript (planErr showErr : Option String) (showOut : String) :
    List String → Option String × List Chunk
  | "plan" :: _ => (planErr, if planErr.isSome then [⟨true, "Error"⟩] else [])
  | "show" :: _ =>
      (showErr, ⟨false, showOut⟩ :: (if showErr.isSome then [⟨true, "Error"⟩] else []))
  | _ => (none, [])

/-- A decoder for examples in the manner of `encoding/json`: text that is
not JSON is an error, and a document leaves the fields it does not mention at
their zero value. It knows two documents and rejects every other text. -/
def sampleUnmarshalPlan (data : String) : Except String Tfautomv.Plan :=
  if data = "\x7b\"resource_changes\":[]\x7d" then
    .ok { format_version := none, resource_changes := [] }
  else if data = "\x7b\"format_version\":\"1.2\",\"resource_changes\":[]\x7d" then
    .ok { format_version := some "1.2", resource_changes := [] }
  else .error "invalid character"

/-- The command `runCommand` builds for `args`. -/
def runner.command (r : runner) (args : List String) : Cmd :=
  { name := "terraform", args := args, dir := r.workdir }

/-- The run of the `plan -out` step of `runner.Plan` from the state `s`, once the
temporary file `planFile` exists. -/
def runner.planRun (r : runner) (env : Env) (planFile : String) (s : Sys) : RunResult :=
  env.run (r.command ["plan", "-out", planFile]) (planFile :: s.files)

/-- The run of the `show -json` step of `runner.Plan`, on the files the `plan`
step left. -/
def runner.showRun (r : runner) (env : Env) (planFile : String) (s : Sys) : RunResult :=
  env.run (r.command ["show", "-json", planFile]) (r.planRun env planFile s).files

/-- The run of the `version -json` step of `runner.Version`. -/
def runner.versionRun (r : runner) (env : Env) (s : Sys) : RunResult :=
  env.run (r.command ["version", "-json"]) s.files

/-- An environment in which both steps of `runner.Plan` end as given and `show`
prints `showOut`. -/
def planEnv (planErr showErr : Option String) (showOut : String) : Env :=
  scriptedEnv (planScript planErr showErr showOut) sampleUnmarshalPlan sampleUnmarshalVersion
    semverNewVersion

/-- An environment in which `version -json` succeeds and prints `out`. -/
def versionEnv (out : String) : Env :=
  scriptedEnv (fun _ => (none, [⟨false, out⟩])) sampleUnmarshalPlan sampleUnmarshalVersion
    semverNewVersion

/-- A document without `format_version`. -/
def untaggedDocument : String := "\x7b\"resource_changes\":[]\x7d"

/-- A document with a `format_version`. -/
def taggedDocument : String := "\x7b\"format_version\":\"1.2\",\"resource_changes\":[]\x7d"

/-- The state before anything ran: no file, no subprocess. -/
def Sys.initial : Sys := { files := [], calls := [] }

/-! ## Lemmas on the runner -/

theorem empty_append (s : String) : "" ++ s = s := by
  cases s; rfl

theorem runCommand_eq (r : runner) (env : Env) (args : List String) (out : Option String)
    (s : Sys) :
    r.runCommand env args out s =
      ((env.run (r.command args) s.files).err.map (fun e =>
          { cmd := r.command args,
            buf := written (fun c => c.toStderr || out.isNone)
              (env.run (r.command args) s.files).output,
            err := e }),
        out.map (fun o => o ++ stdoutOf (env.run (r.command args) s.files).output),
        { files := (env.run (r.command args) s.files).files,
          calls := s.calls ++ [r.command args] }) := by
  unfold runner.runCommand runner.command
  dsimp only
  split <;> rename_i h <;> simp [h]

theorem not_mem_osRemove (name : String) (s : Sys) : name ∉ (osRemove name s).files := by
  simp [osRemove]

theorem planBody_eq (r : runner) (env : Env) (F : String) (s : Sys) :
    r.planBody env F { s with files := F :: s.files } =
      match (r.planRun env F s).err with
      | some e =>
        ((none, some (.command (Error.mk (r.command ["plan", "-out", F])
            (written (fun _ => true) (r.planRun env F s).output) e))),
          Sys.mk (r.planRun env F s).files (s.calls ++ [r.command ["plan", "-out", F]]))
      | none =>
        match (r.showRun env F s).err with
        | some e =>
          ((none, some (.command (Error.mk (r.command ["show", "-json", F])
              (stderrOf (r.showRun env F s).output) e))),
            Sys.mk (r.showRun env F s).files
              (s.calls ++ [r.command ["plan", "-out", F], r.command ["show", "-json", F]]))
        | none =>
          match env.unmarshalPlan (stdoutOf (r.showRun env F s).output) with
          | .error e =>
            ((none, some (.wrapf "could not parse plan: " (.json e))),
              Sys.mk (r.showRun env F s).files
                (s.calls ++ [r.command ["plan", "-out", F], r.command ["show", "-json", F]]))
          | .ok p =>
            ((some p, none),
              Sys.mk (r.showRun env F s).files
                (s.calls ++ [r.command ["plan", "-out", F], r.command ["show", "-json", F]]))
      := by
  unfold runner.planBody
  simp only [runCommand_eq]
  unfold runner.showRun runner.planRun
  cases h1 : (env.run (r.command ["plan", "-out", F]) (F :: s.files)).err with
  | some e => simp [written]
  | none =>
    simp only [Option.map_none']
    cases h2 : (env.run (r.command ["show", "-json", F])
        (env.run (r.command ["plan", "-out", F]) (F :: s.files)).files).err with
    | some e => simp [stderrOf]
    | none =>
      simp only [Option.map_none', Option.map_some', Option.getD_some, empty_append]
      cases h3 : env.unmarshalPlan (stdoutOf (env.run (r.command ["show", "-json", F])
          (env.run (r.command ["plan", "-out", F]) (F :: s.files)).files).output) <;> simp

theorem Plan_eq (r : runner) (env : Env) (F : String) (s : Sys)
    (hF : env.createTemp s.files = .ok F) :
    r.Plan env s =
      ((r.planBody env F { s with files := F :: s.files }).1,
        osRemove F (r.planBody env F { s with files := F :: s.files }).2) := by
  unfold runner.Plan
  rw [hF]

/-! ## Lemmas on the regular expression -/

theorem takeWhile_run (p : Char → Bool) (w rest : List Char) (hall : ∀ c ∈ w, p c = true)
    (hrest : ∀ c ∈ rest.head?, p c = false) : (w ++ rest).takeWhile p = w := by
  rw [List.takeWhile_append_of_pos hall]
  cases rest with
  | nil => simp
  | cons c cs => simp at hrest; simp [List.takeWhile, hrest]

theorem matchHere_plus_run (p : Char → Bool) (is : List Item) (i : Nat) (w rest : List Char)
    (r : List Nat × Nat) (hw : w ≠ []) (hall : ∀ c ∈ w, p c = true)
    (hrest : ∀ c ∈ rest.head?, p c = false)
    (hk : matchHere is (i + w.length) rest = some r) :
    matchHere (.plus p :: is) i (w ++ rest) = some r := by
  obtain ⟨m, hm⟩ : ∃ m, w.length = m + 1 := by
    cases w with
    | nil => exact absurd rfl hw
    | cons c cs => exact ⟨cs.length, rfl⟩
  have hdrop : (w ++ rest).drop (m + 1) = rest := by
    rw [← hm]; exact List.drop_left' rfl
  simp only [matchHere, takeWhile_run p w rest hall hrest, hm, List.range_succ,
    List.reverse_append, List.reverse_cons, List.reverse_nil, List.nil_append,
    List.singleton_append, List.findSome?_cons, hdrop]
  rw [hm] at hk
  rw [hk]

theorem matchHere_mark (is : List Item) (i : Nat) (s : List Char) :
    matchHere (.mark :: is) i s = (matchHere is i s).map (fun r => (i :: r.1, r.2)) := by
  rw [matchHere]

theorem matchHere_one (p : Char → Bool) (is : List Item) (i : Nat) (c : Char) (cs : List Char) :
    matchHere (.one p :: is) i (c :: cs) = if p c then matchHere is (i + 1) cs else none := by
  rw [matchHere]

theorem matchHere_versionRe (major minor patch rest : List Char)
    (h1 : major ≠ [] ∧ ∀ c ∈ major, isDigit c = true)
    (h2 : minor ≠ [] ∧ ∀ c ∈ minor, isDigit c = true)
    (h3 : patch ≠ [] ∧ ∀ c ∈ patch, isDigit c = true) :
    matchHere versionRe 0
        ("Terraform ".toList ++ ('v' :: (major ++ '.' :: (minor ++ '.' :: (patch ++ '\n' :: rest))))) =
      some ([10, 10 + (1 + major.length + 1 + minor.length + 1 + patch.length)],
        10 + (1 + major.length + 1 + minor.length + 1 + patch.length) + 1) := by
  have e3 := matchHere_plus_run isDigit [.mark, .one (isLit '\n')]
    (11 + major.length + 1 + minor.length + 1) patch ('\n' :: rest)
    ([11 + major.length + 1 + minor.length + 1 + patch.length],
      11 + major.length + 1 + minor.length + 1 + patch.length + 1) h3.1 h3.2
    (by simp [isDigit]) (by simp [matchHere_one, matchHere_mark, matchHere, isLit])
  have e2 := matchHere_plus_run isDigit
    [.one isAnyNotNL, .plus isDigit, .mark, .one (isLit '\n')]
    (11 + major.length + 1) minor ('.' :: (patch ++ '\n' :: rest)) _ h2.1 h2.2
    (by simp [isDigit]) (by rw [matchHere_one]; simp [isAnyNotNL]; exact e3)
  have e1 := matchHere_plus_run isDigit
    [.one (isLit '.'), .plus isDigit, .one isAnyNotNL, .plus isDigit, .mark, .one (isLit '\n')]
    11 major ('.' :: (minor ++ '.' :: (patch ++ '\n' :: rest))) _ h1.1 h1.2
    (by simp [isDigit]) (by rw [matchHere_one]; simp [isLit]; exact e2)
  simp [versionRe, litItems, matchHere_one, matchHere_mark, isLit, e1]
  omega

theorem isNumeral_iff (s : String) (h : isNumeral s = true) :
    s.toList ≠ [] ∧ ∀ c ∈ s.toList, isDigit c = true := by
  unfold isNumeral at h
  rw [Bool.and_eq_true] at h
  obtain ⟨ha, hb⟩ := h
  refine ⟨?_, by simpa using hb⟩
  intro h0
  simp at ha
  exact ha h0

theorem take_drop_version (M m p rest : List Char) :
    List.take (10 + (1 + M.length + 1 + m.length + 1 + p.length) + 1)
        ("Terraform ".toList ++ ('v' :: (M ++ '.' :: (m ++ '.' :: (p ++ '\n' :: rest))))) =
      "Terraform ".toList ++ ('v' :: (M ++ '.' :: (m ++ '.' :: (p ++ ['\n'])))) ∧
    List.drop 10 (List.take (10 + (1 + M.length + 1 + m.length + 1 + p.length))
        ("Terraform ".toList ++ ('v' :: (M ++ '.' :: (m ++ '.' :: (p ++ '\n' :: rest)))))) =
      'v' :: (M ++ '.' :: (m ++ '.' :: p)) := by
  constructor
  · have e : "Terraform ".toList ++ ('v' :: (M ++ '.' :: (m ++ '.' :: (p ++ '\n' :: rest)))) =
        ("Terraform ".toList ++ ('v' :: (M ++ '.' :: (m ++ '.' :: (p ++ ['\n']))))) ++ rest := by
      simp
    rw [e]
    apply List.take_left'
    simp
    omega
  · have e : "Terraform ".toList ++ ('v' :: (M ++ '.' :: (m ++ '.' :: (p ++ '\n' :: rest)))) =
        ("Terraform ".toList ++ ('v' :: (M ++ '.' :: (m ++ '.' :: p)))) ++ '\n' :: rest := by
      simp
    rw [e, List.take_left' (by simp; omega)]
    exact List.drop_left' (by simp)

theorem toList_version_output (major minor patch rest : String) :
    ("Terraform v" ++ major ++ "." ++ minor ++ "." ++ patch ++ "\n" ++ rest).toList =
      "Terraform ".toList ++ ('v' :: (major.toList ++ '.' :: (minor.toList ++
        '.' :: (patch.toList ++ '\n' :: rest.toList)))) := by
  simp [String.toList, String.data_append]

theorem FindStringSubmatch_version (major minor patch rest : String)
    (h1 : isNumeral major = true) (h2 : isNumeral minor = true) (h3 : isNumeral patch = true) :
    FindStringSubmatch ("Terraform v" ++ major ++ "." ++ minor ++ "." ++ patch ++ "\n" ++ rest) =
      ["Terraform v" ++ major ++ "." ++ minor ++ "." ++ patch ++ "\n",
        "v" ++ major ++ "." ++ minor ++ "." ++ patch] := by
  unfold FindStringSubmatch
  rw [toList_version_output,
    matchHere_versionRe _ _ _ _ (isNumeral_iff _ h1) (isNumeral_iff _ h2) (isNumeral_iff _ h3)]
  simp only
  rw [(take_drop_version _ _ _ _).1, (take_drop_version _ _ _ _).2]
  congr 1
  · apply String.ext
    simp [String.toList, String.data_append]
  · congr 1
    apply String.ext
    simp [String.toList, String.data_append]

theorem dropWhile_run (p : Char → Bool) (w rest : List Char) (hall : ∀ c ∈ w, p c = true)
    (hrest : ∀ c ∈ rest.head?, p c = false) : (w ++ rest).dropWhile p = rest := by
  induction w with
  | nil =>
    cases rest with
    | nil => rfl
    | cons c cs => simp at hrest; simp [List.dropWhile, hrest]
  | cons c cs ih =>
    have hc : p c = true := hall c (by simp)
    simp [List.dropWhile, hc, ih (fun x hx => hall x (by simp [hx]))]

theorem parseUint_numeral (s : String) (h : isNumeral s = true) (hv : numeralValue s < 2 ^ 64) :
    parseUint s.toList = some (numeralValue s) := by
  obtain ⟨hne, hall⟩ := isNumeral_iff s h
  unfold parseUint
  have hall2 : s.toList.all isDigit = true := by simpa using hall
  unfold numeralValue at hv
  simp only [hne, hall2, hv, ne_eq, not_false_eq_true, and_self, if_true, numeralValue]

theorem semverNewVersion_numerals (major minor patch : String)
    (h1 : isNumeral major = true) (h2 : isNumeral minor = true) (h3 : isNumeral patch = true)
    (v1 : numeralValue major < 2 ^ 64) (v2 : numeralValue minor < 2 ^ 64)
    (v3 : numeralValue patch < 2 ^ 64) :
    semverNewVersion ("v" ++ major ++ "." ++ minor ++ "." ++ patch) =
      .ok (SemVer.mk (numeralValue major) (numeralValue minor) (numeralValue patch) "" "") := by
  obtain ⟨n1, a1⟩ := isNumeral_iff major h1
  obtain ⟨n2, a2⟩ := isNumeral_iff minor h2
  obtain ⟨n3, a3⟩ := isNumeral_iff patch h3
  have hcap : ("v" ++ major ++ "." ++ minor ++ "." ++ patch).toList =
      'v' :: (major.toList ++ '.' :: (minor.toList ++ '.' :: (patch.toList ++ []))) := by
    simp [String.toList, String.data_append]
  have hd : ∀ c ∈ ('.' :: (minor.toList ++ '.' :: (patch.toList ++ []))).head?,
      isDigit c = false := by simp [isDigit]
  have hd2 : ∀ c ∈ ('.' :: (patch.toList ++ [])).head?, isDigit c = false := by simp [isDigit]
  have hd3 : ∀ c ∈ ([] : List Char).head?, isDigit c = false := by simp
  unfold semverNewVersion
  rw [hcap]
  simp only [takeWhile_run isDigit _ _ a1 hd, dropWhile_run isDigit _ _ a1 hd, optSegment,
    takeWhile_run isDigit _ _ a2 hd2, dropWhile_run isDigit _ _ a2 hd2,
    takeWhile_run isDigit _ _ a3 hd3, dropWhile_run isDigit _ _ a3 hd3, n1, n2, n3, if_false,
    optLabel, parseUint_numeral _ h1 v1, parseUint_numeral _ h2 v2, parseUint_numeral _ h3 v3]
  simp

/-! ## Theorems on the runner -/

/-- C4: `runCommand` returns a nil error exactly when the run of the subprocess
succeeds, and so do `Init` and `Apply`; when the run fails, the error is the
`Error` that carries the command that was run (`terraform` with the given
arguments in the working directory of the runner), the buffer that captured
the standard error (alone when `out` is given, together with the standard
output when `out` is nil) and the error of the run. -/
theorem runCommand_error_iff_run_fails (r : runner) (env : Env) (args : List String)
    (out : Option String) (s : Sys) :
    ((r.runCommand env args out s).1 = none ↔ (env.run (r.command args) s.files).err = none) ∧
    (r.runCommand env args out s).1 =
      (env.run (r.command args) s.files).err.map (fun e =>
        Error.mk (Cmd.mk "terraform" args r.workdir)
          (written (fun c => c.toStderr || out.isNone) (env.run (r.command args) s.files).output)
          e) ∧
    (written (fun c => c.toStderr || out.isNone) (env.run (r.command args) s.files).output =
      if out.isNone then written (fun _ => true) (env.run (r.command args) s.files).output
      else stderrOf (env.run (r.command args) s.files).output) ∧
    ((r.Init env s).1 = none ↔ (env.run (r.command ["init"]) s.files).err = none) ∧
    ((r.Apply env s).1 = none ↔
      (env.run (r.command ["apply", "-auto-approve"]) s.files).err = none) := by
  refine ⟨?_, ?_, ?_, ?_, ?_⟩
  · rw [runCommand_eq]; simp
  · rw [runCommand_eq]; rfl
  · cases out <;> simp [stderrOf]
  · unfold runner.Init; rw [runCommand_eq]; simp
  · unfold runner.Apply; rw [runCommand_eq]; simp

/-- C4, on a run of `show -json` that fails after printing to both streams: the
error carries the command, the standard error and the error of the run. -/
theorem runCommand_error_iff_run_fails_witness :
    ((NewRunner "dir").runCommand (planEnv none (some "exit status 1") "text")
        ["show", "-json", "f"] (some "") Sys.initial).1 =
      some (Error.mk (Cmd.mk "terraform" ["show", "-json", "f"] "dir") "Error" "exit status 1") :=
  ((runCommand_error_iff_run_fails (NewRunner "dir") (planEnv none (some "exit status 1") "text")
    ["show", "-json", "f"] (some "") Sys.initial).2.1).trans (by decide)

/-- C5: once the temporary file `F` exists, `Plan` starts `plan -out F` and then,
only when that run succeeded, `show -json F` with the same `F`, both as
`terraform` in the working directory of the runner, and nothing else; the
failure of either run is the error `Plan` returns, with no plan. -/
theorem Plan_invocations (r : runner) (env : Env) (s : Sys) (F : String)
    (hF : env.createTemp s.files = .ok F) :
    (r.Plan env s).2.calls =
      s.calls ++
        (if (r.planRun env F s).err = none then
          [Cmd.mk "terraform" ["plan", "-out", F] r.workdir,
            Cmd.mk "terraform" ["show", "-json", F] r.workdir]
        else [Cmd.mk "terraform" ["plan", "-out", F] r.workdir]) ∧
    (∀ e, (r.planRun env F s).err = some e →
      (r.Plan env s).1 =
        (none, some (.command (Error.mk (Cmd.mk "terraform" ["plan", "-out", F] r.workdir)
          (written (fun _ => true) (r.planRun env F s).output) e)))) ∧
    (∀ e, (r.planRun env F s).err = none → (r.showRun env F s).err = some e →
      (r.Plan env s).1 =
        (none, some (.command (Error.mk (Cmd.mk "terraform" ["show", "-json", F] r.workdir)
          (stderrOf (r.showRun env F s).output) e)))) := by
  rw [Plan_eq r env F s hF, planBody_eq]
  refine ⟨?_, ?_, ?_⟩
  · cases h1 : (r.planRun env F s).err with
    | some e => simp [osRemove, runner.command]
    | none =>
      cases h2 : (r.showRun env F s).err with
      | some e => simp [osRemove, runner.command]
      | none =>
        cases h3 : env.unmarshalPlan (stdoutOf (r.showRun env F s).output) <;>
          simp [osRemove, runner.command]
  · intro e h1
    simp [h1, runner.command]
  · intro e h1 h2
    simp [h1, h2, runner.command]

/-- C5, on a run in which `plan` succeeds and `show` fails: two subprocesses, in
order, and the error of `show`. -/
theorem Plan_invocations_witness :
    ((NewRunner "dir").Plan (planEnv none (some "exit status 1") "") Sys.initial).2.calls =
      [Cmd.mk "terraform" ["plan", "-out", "/tmp/tfautomv.1.plan"] "dir",
        Cmd.mk "terraform" ["show", "-json", "/tmp/tfautomv.1.plan"] "dir"] :=
  ((Plan_invocations (NewRunner "dir") (planEnv none (some "exit status 1") "") Sys.initial
    "/tmp/tfautomv.1.plan" rfl).1).trans (by decide)

/-- C6 as stated fails: `Apply` starts the planner with the arguments
`apply -auto-approve`, which is none of the four listed forms. -/
theorem Apply_invocation_not_listed :
    ((NewRunner "dir").Apply (planEnv none none "") Sys.initial).2.calls =
      [Cmd.mk "terraform" ["apply", "-auto-approve"] "dir"] ∧
    isListedInvocation ["apply", "-auto-approve"] = false := by
  decide

/-- C6 (amended): every subprocess that `Init`, `Plan` or `Version` starts has an
argument list of one of the forms `init`, `plan -out <file>`, `show -json <file>`,
`version -json`; `Apply` starts one subprocess, with the arguments
`apply -auto-approve`. -/
theorem invocations_listed_or_apply (r : runner) (env : Env) (s : Sys) :
    (∃ new, (r.Init env s).2.calls = s.calls ++ new ∧
      ∀ c ∈ new, isListedInvocation c.args = true) ∧
    (∃ new, (r.Plan env s).2.calls = s.calls ++ new ∧
      ∀ c ∈ new, isListedInvocation c.args = true) ∧
    (∃ new, (r.Version env s).2.calls = s.calls ++ new ∧
      ∀ c ∈ new, isListedInvocation c.args = true) ∧
    (r.Apply env s).2.calls = s.calls ++ [Cmd.mk "terraform" ["apply", "-auto-approve"] r.workdir]
    := by
  refine ⟨?_, ?_, ?_, ?_⟩
  · refine ⟨[r.command ["init"]], ?_, ?_⟩
    · unfold runner.Init; rw [runCommand_eq]
    · simp [runner.command, isListedInvocation]
  · cases hF : env.createTemp s.files with
    | error e => exact ⟨[], by simp [runner.Plan, hF], by simp⟩
    | ok F =>
      rw [Plan_eq r env F s hF, planBody_eq]
      cases h1 : (r.planRun env F s).err with
      | some e =>
        exact ⟨[r.command ["plan", "-out", F]], by simp [osRemove],
          by simp [runner.command, isListedInvocation]⟩
      | none =>
        refine ⟨[r.command ["plan", "-out", F], r.command ["show", "-json", F]], ?_,
          by simp [runner.command, isListedInvocation]⟩
        cases h2 : (r.showRun env F s).err with
        | some e => simp [osRemove]
        | none =>
          cases h3 : env.unmarshalPlan (stdoutOf (r.showRun env F s).output) <;>
            simp [osRemove]
  · refine ⟨[r.command ["version", "-json"]], ?_, by simp [runner.command, isListedInvocation]⟩
    unfold runner.Version
    rw [runCommand_eq]
    cases h1 : (env.run (r.command ["version", "-json"]) s.files).err with
    | some e => simp
    | none =>
      simp only [Option.map_none']
      split <;> rfl
  · unfold runner.Apply; rw [runCommand_eq]; rfl

/-- C2: when `os.CreateTemp` created the file `F`, the file exists when the body
of `Plan` starts, the state in which `Plan` returns is the state its body left
with `os.Remove(F)` applied, and `F` does not exist in it; this holds on every
path: the files left are those the last subprocess left (`plan` when it failed,
else `show`), without `F`. -/
theorem Plan_removes_temp_file (r : runner) (env : Env) (s : Sys) (F : String)
    (hF : env.createTemp s.files = .ok F) :
    F ∈ ({ s with files := F :: s.files } : Sys).files ∧
    (r.Plan env s).2 = osRemove F (r.planBody env F { s with files := F :: s.files }).2 ∧
    (r.Plan env s).2.files =
      (if (r.planRun env F s).err = none then (r.showRun env F s).files
        else (r.planRun env F s).files).filter (fun f => f ≠ F) ∧
    F ∉ (r.Plan env s).2.files := by
  rw [Plan_eq r env F s hF]
  refine ⟨by simp, rfl, ?_, not_mem_osRemove F _⟩
  rw [planBody_eq]
  cases h1 : (r.planRun env F s).err with
  | some e => simp [osRemove]
  | none =>
    cases h2 : (r.showRun env F s).err with
    | some e => simp [osRemove]
    | none =>
      cases h3 : env.unmarshalPlan (stdoutOf (r.showRun env F s).output) <;> simp [osRemove]

/-- C2, on the four paths: `plan` fails, `show` fails, the output of `show` does
not parse, and success; the temporary file is gone in each. -/
theorem Plan_removes_temp_file_witness :
    "/tmp/tfautomv.1.plan" ∉
      ((NewRunner "dir").Plan (planEnv (some "exit status 1") none "") Sys.initial).2.files ∧
    "/tmp/tfautomv.1.plan" ∉
      ((NewRunner "dir").Plan (planEnv none (some "exit status 1") "") Sys.initial).2.files ∧
    "/tmp/tfautomv.1.plan" ∉
      ((NewRunner "dir").Plan (planEnv none none "not json") Sys.initial).2.files ∧
    "/tmp/tfautomv.1.plan" ∉
      ((NewRunner "dir").Plan (planEnv none none taggedDocument) Sys.initial).2.files :=
  ⟨(Plan_removes_temp_file _ (planEnv (some "exit status 1") none "") Sys.initial _ rfl).2.2.2,
   (Plan_removes_temp_file _ (planEnv none (some "exit status 1") "") Sys.initial _ rfl).2.2.2,
   (Plan_removes_temp_file _ (planEnv none none "not json") Sys.initial _ rfl).2.2.2,
   (Plan_removes_temp_file _ (planEnv none none taggedDocument) Sys.initial _ rfl).2.2.2⟩

/-- C10: `Plan` returns either a plan and a nil error, or a nil plan and a non-nil
error; and when the temporary file was created, both subprocesses succeeded and
the output of `show -json` does not unmarshal, it returns a nil plan and the
error of `json.Unmarshal` wrapped with the text `could not parse plan: `. -/
theorem Plan_plan_xor_error (r : runner) (env : Env) (s : Sys) :
    (((r.Plan env s).1.1.isSome = true ∧ (r.Plan env s).1.2 = none) ∨
      ((r.Plan env s).1.1 = none ∧ (r.Plan env s).1.2.isSome = true)) ∧
    (∀ F e, env.createTemp s.files = .ok F → (r.planRun env F s).err = none →
      (r.showRun env F s).err = none →
      env.unmarshalPlan (stdoutOf (r.showRun env F s).output) = .error e →
      (r.Plan env s).1 = (none, some (.wrapf "could not parse plan: " (.json e))) ∧
      ((r.Plan env s).1.2.bind GoErr.unwrap) = some (.json e)) := by
  constructor
  · cases hF : env.createTemp s.files with
    | error e => simp [runner.Plan, hF]
    | ok F =>
      rw [Plan_eq r env F s hF, planBody_eq]
      cases h1 : (r.planRun env F s).err with
      | some e => simp
      | none =>
        cases h2 : (r.showRun env F s).err with
        | some e => simp
        | none =>
          cases h3 : env.unmarshalPlan (stdoutOf (r.showRun env F s).output) <;> simp
  · intro F e hF h1 h2 h3
    rw [Plan_eq r env F s hF, planBody_eq]
    simp [h1, h2, h3, GoErr.unwrap]

/-- C10, on a run in which `show -json` prints text that is not JSON. -/
theorem Plan_plan_xor_error_witness :
    ((NewRunner "dir").Plan (planEnv none none "not json") Sys.initial).1.1.isSome = false ∧
    ((NewRunner "dir").Plan (planEnv none none "not json") Sys.initial).1.2 =
      some (.wrapf "could not parse plan: " (.json "invalid character")) :=
  ⟨by
    have h := ((Plan_plan_xor_error (NewRunner "dir") (planEnv none none "not json")
      Sys.initial).2 "/tmp/tfautomv.1.plan" "invalid character" rfl rfl rfl rfl).1
    rw [h]; rfl,
   by
    have h := ((Plan_plan_xor_error (NewRunner "dir") (planEnv none none "not json")
      Sys.initial).2 "/tmp/tfautomv.1.plan" "invalid character" rfl rfl rfl rfl).1
    rw [h]⟩

/-- C1 as stated fails: both subprocesses succeed, `show -json` prints a document
without `format_version`, the document unmarshals, and `Plan` returns the plan
with a nil error. -/
theorem Plan_accepts_untagged_document :
    ((NewRunner "dir").planRun (planEnv none none untaggedDocument) "/tmp/tfautomv.1.plan"
      Sys.initial).err = none ∧
    ((NewRunner "dir").showRun (planEnv none none untaggedDocument) "/tmp/tfautomv.1.plan"
      Sys.initial).err = none ∧
    ((NewRunner "dir").Plan (planEnv none none untaggedDocument) Sys.initial).1.1.map
      (fun p => p.format_version) = some none ∧
    ((NewRunner "dir").Plan (planEnv none none untaggedDocument) Sys.initial).1.2 = none := by
  decide

/-- C1 (amended): when the temporary file was created, both subprocesses
succeeded and the output of `show -json` unmarshals into a plan, `Plan` returns
that plan and a nil error, whatever the format-version tag of the document. -/
theorem Plan_returns_decoded_plan (r : runner) (env : Env) (s : Sys) (F : String)
    (p : Tfautomv.Plan) (hF : env.createTemp s.files = .ok F)
    (h1 : (r.planRun env F s).err = none) (h2 : (r.showRun env F s).err = none)
    (hp : env.unmarshalPlan (stdoutOf (r.showRun env F s).output) = .ok p) :
    (r.Plan env s).1 = (some p, none) := by
  rw [Plan_eq r env F s hF, planBody_eq]
  simp [h1, h2, hp]

/-- C1 (amended), on documents with and without a `format_version`. -/
theorem Plan_returns_decoded_plan_witness :
    ((NewRunner "dir").Plan (planEnv none none taggedDocument) Sys.initial).1 =
      (some (Plan.mk (some "1.2") []), none) ∧
    ((NewRunner "dir").Plan (planEnv none none untaggedDocument) Sys.initial).1 =
      (some (Plan.mk none []), none) :=
  ⟨Plan_returns_decoded_plan _ (planEnv none none taggedDocument) Sys.initial
      "/tmp/tfautomv.1.plan" _ rfl rfl rfl rfl,
   Plan_returns_decoded_plan _ (planEnv none none untaggedDocument) Sys.initial
      "/tmp/tfautomv.1.plan" _ rfl rfl rfl rfl⟩

theorem Version_eq (r : runner) (env : Env) (s : Sys) (h : (r.versionRun env s).err = none) :
    (r.Version env s).1 =
      match env.unmarshalVersion (stdoutOf (r.versionRun env s).output) with
      | .ok version => semverResult (env.newVersion version.TerraformVersion)
      | .error _ =>
        if (FindStringSubmatch (stdoutOf (r.versionRun env s).output)).length ≠ 2 then
          (none, some (.quotef "could not parse version from output "
            (stdoutOf (r.versionRun env s).output)))
        else
          semverResult (env.newVersion
            ((FindStringSubmatch (stdoutOf (r.versionRun env s).output)).getD 1 "")) := by
  unfold runner.versionRun at h ⊢
  unfold runner.Version
  rw [runCommand_eq]
  simp only [h, Option.map_none', Option.map_some', Option.getD_some, empty_append]
  cases h3 : env.unmarshalVersion
      (stdoutOf (env.run (r.command ["version", "-json"]) s.files).output) with
  | ok v => simp
  | error e =>
    simp only
    split <;> rename_i h4 <;> split at h4 <;> simp_all

/-- C3 as stated fails: for the numerals 18446744073709551616, 0 and 0 the
subprocess succeeds, its output does not unmarshal and starts with
`Terraform v18446744073709551616.0.0` and a newline, the group of the
expression is `v18446744073709551616.0.0`, and `Version` returns no version:
the major number does not fit the 64 bits of a segment of `semver.NewVersion`. -/
theorem Version_text_fallback_overflow :
    isNumeral "18446744073709551616" = true ∧ isNumeral "0" = true ∧
    ((NewRunner "dir").versionRun (versionEnv "Terraform v18446744073709551616.0.0\n")
      Sys.initial).err = none ∧
    (versionEnv "Terraform v18446744073709551616.0.0\n").unmarshalVersion
      (stdoutOf ((NewRunner "dir").versionRun
        (versionEnv "Terraform v18446744073709551616.0.0\n") Sys.initial).output) =
      .error "invalid character" ∧
    FindStringSubmatch "Terraform v18446744073709551616.0.0\n" =
      ["Terraform v18446744073709551616.0.0\n", "v18446744073709551616.0.0"] ∧
    ((NewRunner "dir").Version (versionEnv "Terraform v18446744073709551616.0.0\n")
      Sys.initial).1 = (none, some (.semver "Error parsing version segment")) := by
  decide

/-- C3 (amended): when `version -json` succeeds and prints text that does not
unmarshal and that starts with `Terraform v<major>.<minor>.<patch>` and a
newline, for decimal numerals `major`, `minor` and `patch`, the group of the
expression is exactly `v<major>.<minor>.<patch>` and `Version` returns what
`semver.NewVersion` returns for that string, whatever follows the first line;
when `semver.NewVersion` reads that string as the model does and each of the
three numbers fits 64 bits, `Version` returns the version
major.minor.patch, without prerelease or metadata, and a nil error. -/
theorem Version_text_fallback (r : runner) (env : Env) (s : Sys)
    (major minor patch rest e : String)
    (h1 : isNumeral major = true) (h2 : isNumeral minor = true) (h3 : isNumeral patch = true)
    (hrun : (r.versionRun env s).err = none)
    (hout : stdoutOf (r.versionRun env s).output =
      "Terraform v" ++ major ++ "." ++ minor ++ "." ++ patch ++ "\n" ++ rest)
    (hjson : env.unmarshalVersion (stdoutOf (r.versionRun env s).output) = .error e) :
    FindStringSubmatch (stdoutOf (r.versionRun env s).output) =
      ["Terraform v" ++ major ++ "." ++ minor ++ "." ++ patch ++ "\n",
        "v" ++ major ++ "." ++ minor ++ "." ++ patch] ∧
    (r.Version env s).1 =
      semverResult (env.newVersion ("v" ++ major ++ "." ++ minor ++ "." ++ patch)) ∧
    (env.newVersion ("v" ++ major ++ "." ++ minor ++ "." ++ patch) =
        semverNewVersion ("v" ++ major ++ "." ++ minor ++ "." ++ patch) →
      numeralValue major < 2 ^ 64 → numeralValue minor < 2 ^ 64 →
      numeralValue patch < 2 ^ 64 →
      (r.Version env s).1 =
        (some (SemVer.mk (numeralValue major) (numeralValue minor) (numeralValue patch) "" ""),
          none)) := by
  have hf := FindStringSubmatch_version major minor patch rest h1 h2 h3
  rw [← hout] at hf
  have hv : (r.Version env s).1 =
      semverResult (env.newVersion ("v" ++ major ++ "." ++ minor ++ "." ++ patch)) := by
    rw [Version_eq r env s hrun, hjson]
    simp [hf]
  refine ⟨hf, hv, ?_⟩
  intro hparse v1 v2 v3
  rw [hv, hparse, semverNewVersion_numerals major minor patch h1 h2 h3 v1 v2 v3]
  rfl

/-- C3 (amended), on the output of Terraform 0.12.31, whose first line is
followed by other text. -/
theorem Version_text_fallback_witness :
    ((NewRunner "dir").Version
        (versionEnv "Terraform v0.12.31\n\nYour version of Terraform is out of date!\n")
        Sys.initial).1 =
      (some (SemVer.mk 0 12 31 "" ""), none) :=
  (Version_text_fallback (NewRunner "dir")
    (versionEnv "Terraform v0.12.31\n\nYour version of Terraform is out of date!\n")
    Sys.initial "0" "12" "31" "\nYour version of Terraform is out of date!\n"
    "invalid character" (by decide) (by decide) (by decide) rfl (by decide) (by decide)).2.2
    rfl (by decide) (by decide) (by decide)

/-- C8, the code at the failing input: on the output `Terraform v0.123` and a
newline the expression matches, because its second separator is an unescaped
`.` that takes the digit `2`, the group is `v0.123`, and `Version` returns the
version 0.123.0 with a nil error; on `Terraform v0.12x3` the expression matches
too and hands `v0.12x3` to `semver.NewVersion`. -/
theorem Version_accepts_two_group_token :
    FindStringSubmatch "Terraform v0.123\n" = ["Terraform v0.123\n", "v0.123"] ∧
    FindStringSubmatch "Terraform v0.12x3\n" = ["Terraform v0.12x3\n", "v0.12x3"] ∧
    ((NewRunner "dir").Version (versionEnv "Terraform v0.123\n") Sys.initial).1 =
      (some (SemVer.mk 0 123 0 "" ""), none) := by
  decide

/-- C9: when the `version -json` subprocess fails, `Version` returns its error,
whatever the subprocess printed and whatever the parsers would do; when it
succeeds and its output neither unmarshals nor matches the expression at its
start, `Version` returns no version and the error
`could not parse version from output <quoted output>`. The expression does not
match the empty output, nor a `Terraform v...` line that is not the first
line, nor one that no newline ends. -/
theorem Version_errors (r : runner) (env : Env) (s : Sys) :
    (∀ e, (r.versionRun env s).err = some e →
      (r.Version env s).1 =
        (none, some (.command (Error.mk (Cmd.mk "terraform" ["version", "-json"] r.workdir)
          (stderrOf (r.versionRun env s).output) e)))) ∧
    (∀ e, (r.versionRun env s).err = none →
      env.unmarshalVersion (stdoutOf (r.versionRun env s).output) = .error e →
      matchHere versionRe 0 (stdoutOf (r.versionRun env s).output).toList = none →
      (r.Version env s).1 =
        (none, some (.quotef "could not parse version from output "
          (stdoutOf (r.versionRun env s).output)))) ∧
    matchHere versionRe 0 "".toList = none ∧
    matchHere versionRe 0 "Warning\nTerraform v0.12.31\n".toList = none ∧
    matchHere versionRe 0 "Terraform v0.12.31".toList = none := by
  refine ⟨?_, ?_, by decide, by decide, by decide⟩
  · intro e h
    unfold runner.versionRun at h ⊢
    unfold runner.Version
    rw [runCommand_eq, h]
    simp [stderrOf, runner.command]
  · intro e hrun hjson hre
    have hf : FindStringSubmatch (stdoutOf (r.versionRun env s).output) = [] := by
      unfold FindStringSubmatch
      rw [hre]
    rw [Version_eq r env s hrun, hjson]
    simp [hf]

/-- C9, on an empty output and on a failing subprocess. -/
theorem Version_errors_witness :
    ((NewRunner "dir").Version (versionEnv "") Sys.initial).1 =
      (none, some (.quotef "could not parse version from output " "")) ∧
    ((NewRunner "dir").Version
        (scriptedEnv (fun _ => (some "exit status 1", [⟨true, "Error"⟩])) sampleUnmarshalPlan
          sampleUnmarshalVersion semverNewVersion) Sys.initial).1 =
      (none, some (.command (Error.mk (Cmd.mk "terraform" ["version", "-json"] "dir")
        "Error" "exit status 1"))) :=
  ⟨(Version_errors (NewRunner "dir") (versionEnv "") Sys.initial).2.1 "invalid character"
      rfl (by decide) (by decide),
   (Version_errors (NewRunner "dir")
      (scriptedEnv (fun _ => (some "exit status 1", [⟨true, "Error"⟩])) sampleUnmarshalPlan
        sampleUnmarshalVersion semverNewVersion) Sys.initial).1 "exit status 1" rfl⟩

/-! ## The consumer of the `commands` format -/

theorem splitOnChar_append_sep (sep : Char) (l rest : List Char) (h : ∀ c ∈ l, c ≠ sep) :
    splitOnChar sep (l ++ sep :: rest) = l :: splitOnChar sep rest := by
  induction l with
  | nil => simp [splitOnChar]
  | cons c cs ih =>
    have hc : c ≠ sep := h c (by simp)
    have ih2 := ih (fun x hx => h x (by simp [hx]))
    simp [splitOnChar, hc, ih2]

theorem splitOnChar_no_sep (sep : Char) (l : List Char) (h : ∀ c ∈ l, c ≠ sep) :
    splitOnChar sep l = [l] := by
  induction l with
  | nil => simp [splitOnChar]
  | cons c cs ih =>
    have hc : c ≠ sep := h c (by simp)
    have ih2 := ih (fun x hx => h x (by simp [hx]))
    simp [splitOnChar, hc, ih2]

theorem tfMvLoop_cons_congr (l : List Char) (Y Z : List (List Char))
    (h : tfMvLoop Y = tfMvLoop Z) : tfMvLoop (l :: Y) = tfMvLoop (l :: Z) := by
  simp [tfMvLoop, h]

theorem tfMvLoop_Split_joinLines (lines : List (List Char)) (trailing : Bool)
    (h : ∀ l ∈ lines, ∀ c ∈ l, c ≠ '\n') :
    tfMvLoop (Split (joinLines lines ++ (if trailing then ['\n'] else []))) = tfMvLoop lines := by
  induction lines with
  | nil => cases trailing <;> simp [Split, splitOnChar, joinLines, tfMvLoop]
  | cons l ls ih =>
    have hl : ∀ c ∈ l, c ≠ '\n' := h l (by simp)
    cases ls with
    | nil =>
      cases trailing
      · simp [Split, joinLines, splitOnChar_no_sep _ l hl]
      · simp only [Split, joinLines, if_true]
        rw [splitOnChar_append_sep _ l [] hl]
        apply tfMvLoop_cons_congr
        simp [splitOnChar, tfMvLoop]
    | cons l2 ls2 =>
      have ih2 := ih (fun x hx => h x (by simp [hx]))
      simp only [Split, joinLines, List.append_assoc, List.cons_append] at ih2 ⊢
      rw [splitOnChar_append_sep _ l _ hl]
      exact tfMvLoop_cons_congr l _ _ ih2

theorem fieldsLoop_some_append (u : List Char) (hu : ∀ c ∈ u, isSpace c = false) :
    ∀ (w rest : List Char), fieldsLoop (some w) (u ++ rest) = fieldsLoop (some (w ++ u)) rest := by
  induction u with
  | nil => intro w rest; simp
  | cons c cs ih =>
    intro w rest
    have hc : isSpace c = false := hu c (by simp)
    have ih2 := ih (fun x hx => hu x (by simp [hx])) (w ++ [c]) rest
    simp [fieldsLoop, hc, ih2]

theorem fieldsLoop_none_append (u rest : List Char) (hne : u ≠ [])
    (hu : ∀ c ∈ u, isSpace c = false) :
    fieldsLoop none (u ++ rest) = fieldsLoop (some u) rest := by
  cases u with
  | nil => exact absurd rfl hne
  | cons c cs =>
    have hc : isSpace c = false := hu c (by simp)
    have h2 := fieldsLoop_some_append cs (fun x hx => hu x (by simp [hx])) [c] rest
    simp [fieldsLoop, hc, h2]

theorem fieldsLoop_word (u rest : List Char) (hne : u ≠ [])
    (hu : ∀ c ∈ u, isSpace c = false) :
    fieldsLoop none (u ++ ' ' :: rest) = u :: fieldsLoop none rest := by
  rw [fieldsLoop_none_append u _ hne hu]
  simp [fieldsLoop, isSpace]

theorem fieldsLoop_last_word (u : List Char) (hne : u ≠ [])
    (hu : ∀ c ∈ u, isSpace c = false) :
    fieldsLoop none u = [u] := by
  have h := fieldsLoop_none_append u [] hne hu
  simp only [List.append_nil] at h
  rw [h]; simp [fieldsLoop]

theorem dropWhile_quote_of_head (l : List Char) (h : l.head? ≠ some '"') :
    l.dropWhile (fun c => c == '"') = l := by
  cases l with
  | nil => rfl
  | cons c cs =>
    have hc : (c == '"') = false := by
      rw [beq_eq_false_iff_ne]; intro e; exact h (by simp [e])
    simp [List.dropWhile, hc]

theorem Trim_quoted (a : List Char) (h1 : a.head? ≠ some '"') (h2 : a.getLast? ≠ some '"') :
    Trim ('"' :: (a ++ ['"'])) '"' = a := by
  unfold Trim
  cases a with
  | nil => simp [List.dropWhile]
  | cons c cs =>
    have e1 : List.dropWhile (fun c => c == '"') ('"' :: (c :: cs ++ ['"'])) = c :: cs ++ ['"'] := by
      have hc : (c == '"') = false := by
        rw [beq_eq_false_iff_ne]; intro e; exact h1 (by simp [e])
      simp [List.dropWhile, hc]
    rw [e1]
    have e2 : (c :: cs ++ ['"']).reverse = '"' :: (c :: cs).reverse := by simp
    rw [e2]
    have e3 : List.dropWhile (fun c => c == '"') ('"' :: (c :: cs).reverse) = (c :: cs).reverse := by
      have := dropWhile_quote_of_head (c :: cs).reverse (by rw [List.head?_reverse]; exact h2)
      simpa [List.dropWhile] using this
    rw [e3, List.reverse_reverse]

theorem Trim_plain (a : List Char) (h1 : a.head? ≠ some '"') (h2 : a.getLast? ≠ some '"') :
    Trim a '"' = a := by
  unfold Trim
  rw [dropWhile_quote_of_head a h1,
    dropWhile_quote_of_head a.reverse (by rw [List.head?_reverse]; exact h2), List.reverse_reverse]

theorem noSpace_iff (s : List Char) (h : noSpace s = true) : ∀ c ∈ s, isSpace c = false := by
  simpa [noSpace] using h

theorem isPlainAddress_iff (a : List Char) (h : isPlainAddress a = true) :
    (∀ c ∈ a, isSpace c = false) ∧ a.head? ≠ some '"' ∧ a.getLast? ≠ some '"' := by
  unfold isPlainAddress at h
  simp only [Bool.and_eq_true, bne_iff_ne, ne_eq] at h
  exact ⟨noSpace_iff a h.1.1, h.1.2, h.2⟩

theorem commandLine_eq (cmd src dst : List Char) :
    commandLine cmd src dst =
      cmd ++ ' ' :: ("state".toList ++ ' ' :: ("mv".toList ++ ' ' ::
        (('"' :: (src ++ ['"'])) ++ ' ' :: ('"' :: (dst ++ ['"']))))) := by
  simp [commandLine]

theorem Fields_commandLine (cmd src dst : List Char) (hne : cmd ≠ [])
    (hcmd : ∀ c ∈ cmd, isSpace c = false) (hsrc : ∀ c ∈ src, isSpace c = false)
    (hdst : ∀ c ∈ dst, isSpace c = false) :
    Fields (commandLine cmd src dst) =
      [cmd, "state".toList, "mv".toList, '"' :: (src ++ ['"']), '"' :: (dst ++ ['"'])] := by
  have hq : ∀ a : List Char, (∀ c ∈ a, isSpace c = false) →
      ∀ c ∈ '"' :: (a ++ ['"']), isSpace c = false := by
    intro a ha c hc
    simp only [List.mem_cons, List.mem_append, List.mem_singleton, List.not_mem_nil,
      or_false] at hc
    rcases hc with rfl | hc | rfl
    · decide
    · exact ha c hc
    · decide
  rw [commandLine_eq, Fields, fieldsLoop_word cmd _ hne hcmd,
    fieldsLoop_word "state".toList _ (by decide) (by decide),
    fieldsLoop_word "mv".toList _ (by decide) (by decide),
    fieldsLoop_word ('"' :: (src ++ ['"'])) _ (by simp) (hq src hsrc),
    fieldsLoop_last_word ('"' :: (dst ++ ['"'])) (by simp) (hq dst hdst)]

theorem tfMvCommand_commandLine (cmd src dst : List Char) (hne : cmd ≠ [])
    (hcmd : noSpace cmd = true) (hsrc : isPlainAddress src = true)
    (hdst : isPlainAddress dst = true) :
    tfMvCommand (commandLine cmd src dst) =
      some (ExecCommand.mk cmd ["state".toList, "mv".toList, src, dst]) := by
  obtain ⟨s1, s2, s3⟩ := isPlainAddress_iff src hsrc
  obtain ⟨d1, d2, d3⟩ := isPlainAddress_iff dst hdst
  unfold tfMvCommand
  rw [Fields_commandLine cmd src dst hne (noSpace_iff cmd hcmd) s1 d1]
  simp only [List.map_cons, List.map_nil, Trim_quoted src s2 s3, Trim_quoted dst d2 d3]
  rw [Trim_plain "state".toList (by decide) (by decide),
    Trim_plain "mv".toList (by decide) (by decide)]

theorem commandLine_no_newline (cmd src dst : List Char)
    (hcmd : noSpace cmd = true) (hsrc : isPlainAddress src = true)
    (hdst : isPlainAddress dst = true) : ∀ c ∈ commandLine cmd src dst, c ≠ '\n' := by
  obtain ⟨s1, -, -⟩ := isPlainAddress_iff src hsrc
  obtain ⟨d1, -, -⟩ := isPlainAddress_iff dst hdst
  have hc := noSpace_iff cmd hcmd
  intro c hmem e
  subst e
  have hsp : isSpace '\n' = true := by decide
  simp [commandLine] at hmem
  rcases hmem with h | h | h
  · rw [hc _ h] at hsp; exact Bool.noConfusion hsp
  · rw [s1 _ h] at hsp; exact Bool.noConfusion hsp
  · rw [d1 _ h] at hsp; exact Bool.noConfusion hsp

theorem tfMvLoop_lines (cmd : List Char) (hne : cmd ≠ []) (hcmd : noSpace cmd = true) :
    ∀ moves : List (List Char × List Char),
      (∀ m ∈ moves, isPlainAddress m.1 = true ∧ isPlainAddress m.2 = true) →
      tfMvLoop (moves.map (fun m => commandLine cmd m.1 m.2)) =
        some (moves.map (fun m => ExecCommand.mk cmd ["state".toList, "mv".toList, m.1, m.2])) := by
  intro moves
  induction moves with
  | nil => intro _; rfl
  | cons m ms ih =>
    intro h
    have hm := h m (by simp)
    have ih2 := ih (fun x hx => h x (by simp [hx]))
    have hline : commandLine cmd m.1 m.2 ≠ [] := by
      rw [commandLine_eq]; simp
    simp only [List.map_cons, tfMvLoop, hline, if_false,
      tfMvCommand_commandLine cmd m.1 m.2 hne hcmd hm.1 hm.2, ih2, Option.map_some']

/-- C7: for a command name `cmd` (non-empty, without white space) and every list
of moves whose addresses contain no white space and neither start nor end with
a double quote, when the standard output is the lines
`<cmd> state mv "<src>" "<dst>"`, one per move, separated by newlines, with or
without a newline at the end, the procedure of the test (split on newlines,
skip the empty items, split each line into fields, trim the double quotes of
each argument) yields one command per move, in order, with the name `cmd` and
the arguments `state`, `mv`, `<src>`, `<dst>`. -/
theorem tfMvCommands_commandsOutput (cmd : List Char) (moves : List (List Char × List Char))
    (trailing : Bool) (hne : cmd ≠ []) (hcmd : noSpace cmd = true)
    (hmoves : ∀ m ∈ moves, isPlainAddress m.1 = true ∧ isPlainAddress m.2 = true) :
    tfMvCommands (commandsOutput cmd moves trailing) =
      some (moves.map (fun m =>
        ExecCommand.mk cmd ["state".toList, "mv".toList, m.1, m.2])) := by
  unfold tfMvCommands commandsOutput
  rw [tfMvLoop_Split_joinLines _ trailing, tfMvLoop_lines cmd hne hcmd moves hmoves]
  intro l hl
  rw [List.mem_map] at hl
  obtain ⟨m, hm, rfl⟩ := hl
  exact commandLine_no_newline cmd m.1 m.2 hcmd (hmoves m hm).1 (hmoves m hm).2

/-- C7, on two moves, one of them with an address that holds double quotes and an
empty address, with a newline at the end of the output. -/
theorem tfMvCommands_commandsOutput_witness :
    tfMvCommands
        "terraform state mv \"a.b\" \"c.d\"\nterraform state mv \"\" \"m.x[\"k\"].y\"\n".toList =
      some [ExecCommand.mk "terraform".toList
              ["state".toList, "mv".toList, "a.b".toList, "c.d".toList],
            ExecCommand.mk "terraform".toList
              ["state".toList, "mv".toList, "".toList, "m.x[\"k\"].y".toList]] :=
  tfMvCommands_commandsOutput "terraform".toList
    [("a.b".toList, "c.d".toList), ("".toList, "m.x[\"k\"].y".toList)] true
    (by decide) (by decide) (by decide)

end Tfautomv
